import Mathlib

/-
Verification development for the odinsource document-and-tag cataloguing tool.

The definitions below are a shallow embedding of the Rust sources:
  - src/tag.rs      : tag records, the tags table, insert / lookup / delete
  - src/document.rs : document records, the documents table, the content store,
                      insert / lookup / delete / stored-path resolution
  - src/cli.rs      : CLI argument structures (only their semantics matter here)

The SQLite tables are modelled as in-memory lists of rows together with the
next primary-key value; `fetch_optional` with a WHERE clause is `List.find?`,
`INSERT` appends a row, `DELETE ... WHERE` filters rows out.  File-system
effects (copying a PDF into the content store, removing it) are modelled by a
list of stored file names plus an explicit success/failure oracle for the
copy/remove calls.  Rust functions returning `anyhow::Result` become functions
returning `Except String` paired with the post-state (the database pool is
mutated even when the function returns `Err`).  A Rust `expect` panic is
modelled as `Option.none`.  Strings are Lean `String`s; the Rust primitives
`split(',')`, `trim` and `to_lowercase` are embedded as structurally recursive
functions over the underlying character lists.
-/

namespace Odinsource

/-- Embedding of Rust `str::to_lowercase` (character-wise lowercasing). -/
def lowerStr (s : String) : String :=
  String.mk (s.data.map Char.toLower)

/-- Embedding of Rust `str::trim`: drop leading and trailing whitespace. -/
def trimChars (l : List Char) : List Char :=
  ((l.dropWhile Char.isWhitespace).reverse.dropWhile Char.isWhitespace).reverse

/-- Embedding of Rust `str::split(c)`: split a character list at every
occurrence of `c`; the result always has one segment more than the number of
separators, so the empty input yields one empty segment. -/
def splitOnChar (c : Char) : List Char → List (List Char)
  | [] => [[]]
  | x :: xs =>
    match splitOnChar c xs with
    | [] => [[]]
    | seg :: rest => if x = c then [] :: seg :: rest else (x :: seg) :: rest

/-- A `tags` table row (struct `DatabaseTag` in src/tag.rs). -/
structure DatabaseTag where
  id : Nat
  value : String
deriving DecidableEq, Repr

/-- A tag as supplied by a user (struct `Tag` in src/tag.rs). -/
structure Tag where
  id : Option Nat
  value : String
deriving DecidableEq, Repr

/-- The `tags` SQLite table: rows plus the next primary-key value. -/
structure TagsTable where
  rows : List DatabaseTag
  nextId : Nat
deriving DecidableEq, Repr

/-- `DatabaseTag::from_value` (src/tag.rs): SELECT * FROM tags WHERE value=?. -/
def DatabaseTag.fromValue (value : String) (t : TagsTable) : Option DatabaseTag :=
  t.rows.find? (fun r => decide (r.value = value))

/-- `DatabaseTag::from_id` (src/tag.rs): SELECT * FROM tags WHERE id=?. -/
def DatabaseTag.fromId (id : Nat) (t : TagsTable) : Option DatabaseTag :=
  t.rows.find? (fun r => decide (r.id = id))

/-- `Tag::new` (src/tag.rs): no id yet, value lowercased. -/
def Tag.new (value : String) : Tag :=
  { id := none, value := lowerStr value }

/-- `DatabaseTag::from_insert` (src/tag.rs): if a row with this value exists
return it unchanged, otherwise INSERT the value with a fresh id and re-fetch
it; the re-fetch failing is the error branch of the source. -/
def DatabaseTag.fromInsert (tag : Tag) (t : TagsTable) :
    Except String DatabaseTag × TagsTable :=
  match DatabaseTag.fromValue tag.value t with
  | some dbt => (Except.ok dbt, t)
  | none =>
    let t2 : TagsTable :=
      { rows := t.rows ++ [{ id := t.nextId, value := tag.value }],
        nextId := t.nextId + 1 }
    match DatabaseTag.fromValue tag.value t2 with
    | some dbt => (Except.ok dbt, t2)
    | none => (Except.error "Failed to insert tag", t2)

/-- `DatabaseTag::delete` (src/tag.rs): DELETE FROM tags WHERE value=?. -/
def DatabaseTag.delete (dbt : DatabaseTag) (t : TagsTable) : TagsTable :=
  { rows := t.rows.filter (fun r => !decide (r.value = dbt.value)),
    nextId := t.nextId }

/-- `Tag::delete` (src/tag.rs): look the value up; delete the row if present,
no-op (logged) if absent. -/
def Tag.delete (tag : Tag) (t : TagsTable) : TagsTable :=
  match DatabaseTag.fromValue tag.value t with
  | some dbt => DatabaseTag.delete dbt t
  | none => t

/-- The tag parser `impl From<&str> for TagInputList` (src/tag.rs): split the
input on commas, drop segments that are empty before trimming, then trim and
lowercase each remaining segment. -/
def TagInputList.fromStr (value : String) : List String :=
  ((splitOnChar ',' value.data).filter (fun v => decide (v ≠ []))).map
    (fun v => String.mk ((trimChars v).map Char.toLower))

/-- `TagInputList::as_tags` (src/tag.rs): wrap each parsed value via `Tag::new`. -/
def TagInputList.asTags (l : List String) : List Tag :=
  l.map Tag.new

/-- The tag-insertion loop of `DatabaseDoc::from_insert` (src/document.rs):
insert each tag in turn via `Tag::insert` = `DatabaseTag::from_insert`,
stopping at the first error; the table keeps the inserts made so far. -/
def insertTagList : List Tag → TagsTable → Except String Unit × TagsTable
  | [], t => (Except.ok (), t)
  | tag :: rest, t =>
    match DatabaseTag.fromInsert tag t with
    | (Except.ok _, t2) => insertTagList rest t2
    | (Except.error e, t2) => (Except.error e, t2)

/-- A `documents` table row (struct `DatabaseDoc` in src/document.rs). -/
structure DatabaseDoc where
  id : Nat
  title : String
  author : String
  year : Nat
  publication : String
  volume : Nat
  tags : String
  doi : String
  uuid : String
deriving DecidableEq, Repr

/-- A user-facing document record (struct `Document` in src/document.rs). -/
structure Document where
  id : Option Nat
  title : String
  author : String
  year : Nat
  publication : String
  volume : Nat
  tags : String
  doi : String
  path : String
deriving DecidableEq, Repr

/-- The `documents` SQLite table: rows plus the next primary-key value. -/
structure DocsTable where
  rows : List DatabaseDoc
  nextId : Nat
deriving DecidableEq, Repr

/-- The content store: the set of file names present in the DOC_STORE_URL
directory, as a list. -/
abbrev Store := List String

/-- The store file name for a content id: `format!("{}.{}", uuid, "pdf")`. -/
def storedFileName (uuid : String) : String :=
  uuid ++ ".pdf"

/-- `DatabaseDoc::is_stored` (src/document.rs): the uuid must be exactly 40
characters long AND the file named by it must exist in the store. -/
def DatabaseDoc.isStored (d : DatabaseDoc) (store : Store) : Bool :=
  decide (d.uuid.data.length = 40) && decide (storedFileName d.uuid ∈ store)

/-- `DatabaseDoc::stored_path` (src/document.rs): error if `is_stored` is
false, otherwise the store location of the uuid-named file. -/
def DatabaseDoc.storedPath (d : DatabaseDoc) (store : Store) : Except String String :=
  if d.isStored store then Except.ok (storedFileName d.uuid)
  else Except.error "Document is not stored"

/-- `impl Into<Document> for DatabaseDoc` (src/document.rs): the conversion
calls `stored_path().expect(..)`, so a failing `stored_path` panics the
process; the panic is modelled as `none`. -/
def DatabaseDoc.intoDocument (d : DatabaseDoc) (store : Store) : Option Document :=
  match d.storedPath store with
  | Except.ok p =>
    some { id := some d.id, title := d.title, author := d.author, year := d.year,
           publication := d.publication, volume := d.volume, tags := d.tags,
           doi := d.doi, path := p }
  | Except.error _ => none

/-- `DatabaseDoc::from_id` (src/document.rs): SELECT * FROM documents WHERE id=?. -/
def DatabaseDoc.fromId (id : Nat) (t : DocsTable) : Option DatabaseDoc :=
  t.rows.find? (fun r => decide (r.id = id))

/-- `DatabaseDoc::from_title` (src/document.rs): SELECT * FROM documents WHERE title=?. -/
def DatabaseDoc.fromTitle (title : String) (t : DocsTable) : Option DatabaseDoc :=
  t.rows.find? (fun r => decide (r.title = title))

/-- Result of a document lookup at the `Document` level: found, not found in
the catalog, or process panic inside the `Into<Document>` conversion. -/
inductive Lookup where
  | found : Document → Lookup
  | notFound : Lookup
  | panicked : Lookup
deriving DecidableEq, Repr

/-- `Document::from_id` (src/document.rs): a catalog miss is the NotFound
error; a hit runs the panicking `Into<Document>` conversion. -/
def Document.fromId (id : Nat) (db : DocsTable) (store : Store) : Lookup :=
  match DatabaseDoc.fromId id db with
  | none => Lookup.notFound
  | some dbd =>
    match dbd.intoDocument store with
    | some doc => Lookup.found doc
    | none => Lookup.panicked

/-- `Document::from_title` (src/document.rs): the queried title is lowercased
before the catalog lookup. -/
def Document.fromTitle (title : String) (db : DocsTable) (store : Store) : Lookup :=
  match DatabaseDoc.fromTitle (lowerStr title) db with
  | none => Lookup.notFound
  | some dbd =>
    match dbd.intoDocument store with
    | some doc => Lookup.found doc
    | none => Lookup.panicked

/-- The full post-state of a document insert: the returned value and the
documents table, tags table and content store afterwards. -/
structure InsertOutcome where
  result : Except String DatabaseDoc
  docs : DocsTable
  tags : TagsTable
  store : Store
deriving Repr

/-- The row INSERTed by `DatabaseDoc::from_insert` (src/document.rs): all
fields of the input document (tags lowercased) plus the freshly generated
uuid (`freshUuid` stands for `Uuid::new_v4().to_string()`).  The full insert
sequence of the source is: (1) if a row with the same title exists, return it
at once; (2) otherwise INSERT this row; (3) copy the source PDF into the
store - `copyOk` is the outcome of `std::fs::copy`, and on failure the
function returns the error with the row already committed; (4) re-fetch the
row by title and run every parsed tag of the input through `Tag::insert`. -/
def insertedDocRow (doc : Document) (freshUuid : String) (db : DocsTable) : DatabaseDoc :=
  { id := db.nextId, title := doc.title, author := doc.author, year := doc.year,
    publication := doc.publication, volume := doc.volume,
    tags := lowerStr doc.tags, doi := doc.doi, uuid := freshUuid }

/-- Main body of `DatabaseDoc::from_insert` (src/document.rs), step by step as
in the source; see `insertedDocRow` above for the INSERTed row. -/
def DatabaseDoc.fromInsert (doc : Document) (freshUuid : String) (copyOk : Bool)
    (db : DocsTable) (tags : TagsTable) (store : Store) : InsertOutcome :=
  match DatabaseDoc.fromTitle doc.title db with
  | some dbd => { result := Except.ok dbd, docs := db, tags := tags, store := store }
  | none =>
    let newRow : DatabaseDoc := insertedDocRow doc freshUuid db
    let db2 : DocsTable := { rows := db.rows ++ [newRow], nextId := db.nextId + 1 }
    if copyOk then
      let store2 : Store := store ++ [storedFileName freshUuid]
      match DatabaseDoc.fromTitle doc.title db2 with
      | some dbd =>
        match insertTagList (TagInputList.asTags (TagInputList.fromStr doc.tags)) tags with
        | (Except.ok _, tags2) =>
          { result := Except.ok dbd, docs := db2, tags := tags2, store := store2 }
        | (Except.error e, tags2) =>
          { result := Except.error e, docs := db2, tags := tags2, store := store2 }
      | none =>
        { result := Except.error "Failed to create DatabaseDoc after insert.",
          docs := db2, tags := tags, store := store2 }
    else
      { result := Except.error "copy failed", docs := db2, tags := tags, store := store }

/-- The post-state of a document delete. -/
structure DeleteOutcome where
  result : Except String Unit
  docs : DocsTable
  store : Store
deriving Repr

/-- `DatabaseDoc::delete` (src/document.rs): DELETE FROM documents WHERE
title=?, then best-effort `std::fs::remove_file` of the stored file -
`removeOk` is that call's outcome; its failure only logs and the function
returns Ok either way. -/
def DatabaseDoc.deleteDoc (d : DatabaseDoc) (db : DocsTable) (store : Store)
    (removeOk : Bool) : DeleteOutcome :=
  let db2 : DocsTable :=
    { rows := db.rows.filter (fun r => !decide (r.title = d.title)), nextId := db.nextId }
  let store2 : Store :=
    if removeOk then store.filter (fun f => !decide (f = storedFileName d.uuid)) else store
  { result := Except.ok (), docs := db2, store := store2 }

/-- Join a list of tag tokens back into the denormalized comma-separated
`tags` field, at the character level. -/
def joinSegs : List (List Char) → List Char
  | [] => []
  | [s] => s
  | s :: ss => s ++ ',' :: joinSegs ss

/-- Join a list of tag tokens back into a comma-separated `tags` string. -/
def joinTokens (toks : List String) : String :=
  String.mk (joinSegs (toks.map String.data))

/-- A well-formed stored tag token: nonempty, comma-free, already trimmed and
already lowercase - the shape every token written by the insert path has. -/
abbrev wfToken (t : String) : Prop :=
  t.data ≠ [] ∧ ',' ∉ t.data ∧ trimChars t.data = t.data ∧
    t.data.map Char.toLower = t.data

/-- Modelled from the spec: the Consistency Synchronizer's
`on_tag_deleted(value)` handler.  The CLI revision of src/cli.rs ships no
`main.rs` under src/ (its `DatabaseDoc::update`, `TagList::get_all` and the
tag-command dispatch are absent), so the user-visible tag-delete operation is
modelled from the spec's words: "for every Document whose `tags` tokens
contain `value`, remove that token (drop it, do not leave an empty slot) and
persist", composed with the in-source `Tag::delete` on the tag catalog. -/
def onTagDeleted (v : String) (db : DocsTable) (tags : TagsTable) :
    DocsTable × TagsTable :=
  let db2 : DocsTable :=
    { rows := db.rows.map (fun r =>
        if v ∈ TagInputList.fromStr r.tags then
          { r with tags := joinTokens ((TagInputList.fromStr r.tags).filter
              (fun t => decide (t ≠ v))) }
        else r),
      nextId := db.nextId }
  (db2, Tag.delete (Tag.new v) tags)

/-- Modelled from the spec: the Consistency Synchronizer's
`on_tag_renamed(old_value, new_value)` handler together with the catalog
rename.  The handler behind src/cli.rs `ModifyTagById`/`ModifyTagByValue` is
absent from src/ (the in-source main.rs is an older revision whose tag-modify
arm is `unimplemented!()`), so it is modelled from the spec's words:
"changes `value` in place preserving `id`" and "for every Document whose
`tags` field, split on comma and trimmed, contains a token equal to
`old_value`, replace that token with `new_value` and persist the row". -/
def onTagRenamed (oldValue newValue : String) (db : DocsTable) (tags : TagsTable) :
    DocsTable × TagsTable :=
  let tags2 : TagsTable :=
    { rows := tags.rows.map (fun r =>
        if decide (r.value = oldValue) then { id := r.id, value := newValue } else r),
      nextId := tags.nextId }
  let db2 : DocsTable :=
    { rows := db.rows.map (fun r =>
        if oldValue ∈ TagInputList.fromStr r.tags then
          { r with tags := joinTokens ((TagInputList.fromStr r.tags).map
              (fun t => if decide (t = oldValue) then newValue else t)) }
        else r),
      nextId := db.nextId }
  (db2, tags2)

/-- A sample stored document row used by concrete witnesses. -/
def sampleDocRow : DatabaseDoc :=
  { id := 1, title := "t", author := "", year := 0, publication := "",
    volume := 0, tags := "", doi := "", uuid := "u" }

/-- A one-row document catalog used by concrete witnesses. -/
def sampleDocsDb : DocsTable :=
  { rows := [sampleDocRow], nextId := 2 }

/-- A document input whose title collides with `sampleDocRow`. -/
def sampleDupDoc : Document :=
  { id := none, title := "t", author := "x", year := 1, publication := "",
    volume := 0, tags := "a", doi := "", path := "p.pdf" }

/-- An empty tag catalog used by concrete witnesses. -/
def emptyTagsTable : TagsTable :=
  { rows := [], nextId := 1 }

/-- An empty document catalog used by concrete witnesses. -/
def emptyDocsDb : DocsTable :=
  { rows := [], nextId := 1 }

/-- A fresh document input used by concrete insert scenarios. -/
def sampleNewDoc : Document :=
  { id := none, title := "t2", author := "", year := 0, publication := "",
    volume := 0, tags := "", doi := "", path := "s.pdf" }

/-- A 36-character UUID-v4 string, the shape `Uuid::new_v4().to_string()`
always produces (32 hex digits plus 4 hyphens). -/
def uuid36 : String := "00000000-0000-4000-8000-000000000000"

/-- A document row carrying a 36-character uuid, exactly as rows created by
the insert path do. -/
def row36 : DatabaseDoc :=
  { id := 1, title := "t", author := "", year := 0, publication := "",
    volume := 0, tags := "", doi := "", uuid := uuid36 }

/-- A document input tagged "a,b" used by the auto-creation witness. -/
def sampleTaggedDoc : Document :=
  { id := none, title := "t3", author := "", year := 0, publication := "",
    volume := 0, tags := "a,b", doi := "", path := "q.pdf" }

/-- A tag catalog already holding the tag "a" with id 1. -/
def preTagsTable : TagsTable :=
  { rows := [{ id := 1, value := "a" }], nextId := 2 }

/-- A document row tagged "a,b,c" used by the synchronizer witnesses. -/
def syncRow1 : DatabaseDoc :=
  { id := 1, title := "d1", author := "", year := 0, publication := "",
    volume := 0, tags := "a,b,c", doi := "", uuid := "u1" }

/-- A document row tagged "a" used by the synchronizer witnesses. -/
def syncRow2 : DatabaseDoc :=
  { id := 2, title := "d2", author := "", year := 0, publication := "",
    volume := 0, tags := "a", doi := "", uuid := "u2" }

/-- A two-document catalog used by the synchronizer witnesses. -/
def syncDocsDb : DocsTable :=
  { rows := [syncRow1, syncRow2], nextId := 3 }

end Odinsource

namespace Odinsource

theorem char_toNat_ofNat_of_valid {n : Nat} (h : n.isValidChar) : (Char.ofNat n).toNat = n := by
  rw [Char.ofNat, dif_pos h]
  rfl

theorem char_toLower_eq_self {d : Char} (h : ¬(d.toNat ≥ 65 ∧ d.toNat ≤ 90)) :
    Char.toLower d = d := by
  unfold Char.toLower
  exact if_neg h

theorem char_toLower_toLower (c : Char) : (Char.toLower c).toLower = Char.toLower c := by
  by_cases h : c.toNat ≥ 65 ∧ c.toNat ≤ 90
  · have h1 : Char.toLower c = Char.ofNat (c.toNat + 32) := by
      unfold Char.toLower
      exact if_pos h
    have hv : (c.toNat + 32).isValidChar := Or.inl (by omega)
    have h2 : (Char.toLower c).toNat = c.toNat + 32 := by
      rw [h1, char_toNat_ofNat_of_valid hv]
    have h3 : ¬((Char.toLower c).toNat ≥ 65 ∧ (Char.toLower c).toNat ≤ 90) := by
      rw [h2]; omega
    exact char_toLower_eq_self h3
  · simp only [char_toLower_eq_self h]

theorem string_mk_data (s : String) : String.mk s.data = s := by
  cases s
  rfl

theorem lowerStr_mk (l : List Char) : lowerStr (String.mk l) = String.mk (l.map Char.toLower) := rfl

theorem lowerStr_token {s t : String} (h : t ∈ TagInputList.fromStr s) : lowerStr t = t := by
  unfold TagInputList.fromStr at h
  obtain ⟨seg, hseg, rfl⟩ := List.exists_of_mem_map h
  rw [lowerStr_mk, List.map_map]
  congr 1
  exact List.map_congr_left (fun c hc => char_toLower_toLower c)

theorem splitOnChar_ne_nil (c : Char) (l : List Char) : splitOnChar c l ≠ [] := by
  cases l with
  | nil => simp [splitOnChar]
  | cons x xs =>
    unfold splitOnChar
    cases h : splitOnChar c xs with
    | nil => simp
    | cons seg rest =>
      by_cases hx : x = c <;> simp [hx]

theorem splitOnChar_append (c : Char) (s l : List Char) (hs : c ∉ s)
    {seg : List Char} {rest : List (List Char)} (h : splitOnChar c l = seg :: rest) :
    splitOnChar c (s ++ l) = (s ++ seg) :: rest := by
  induction s with
  | nil => simpa using h
  | cons x xs ih =>
    have hx : x ≠ c := fun hxc => hs (hxc ▸ List.mem_cons_self x xs)
    have ih2 := ih (fun hm => hs (List.mem_cons_of_mem x hm))
    simp only [List.cons_append]
    unfold splitOnChar
    rw [ih2]
    simp [hx]

theorem splitOnChar_no_sep (c : Char) (s : List Char) (hs : c ∉ s) :
    splitOnChar c s = [s] := by
  have h := @splitOnChar_append c s [] hs [] [] rfl
  simpa using h

theorem splitOnChar_joinSegs (segs : List (List Char)) (h : ∀ s ∈ segs, ',' ∉ s)
    (hne : segs ≠ []) : splitOnChar ',' (joinSegs segs) = segs := by
  induction segs with
  | nil => exact absurd rfl hne
  | cons s ss ih =>
    cases ss with
    | nil =>
      simp only [joinSegs]
      exact splitOnChar_no_sep ',' s (h s (List.mem_cons_self s []))
    | cons s2 rest =>
      have hs : ',' ∉ s := h s (List.mem_cons_self _ _)
      have htail : splitOnChar ',' (joinSegs (s2 :: rest)) = s2 :: rest :=
        ih (fun x hx => h x (List.mem_cons_of_mem s hx)) (by simp)
      have hsep : splitOnChar ',' (',' :: joinSegs (s2 :: rest)) = [] :: s2 :: rest := by
        unfold splitOnChar
        rw [htail]
        simp
      have := splitOnChar_append ',' s (',' :: joinSegs (s2 :: rest)) hs hsep
      simpa [joinSegs] using this

theorem fromStr_joinTokens (toks : List String) (h : ∀ t ∈ toks, wfToken t) :
    TagInputList.fromStr (joinTokens toks) = toks := by
  cases toks with
  | nil => rfl
  | cons t ts =>
    unfold TagInputList.fromStr joinTokens
    have hsplit : splitOnChar ',' (String.mk (joinSegs ((t :: ts).map String.data))).data =
        (t :: ts).map String.data := by
      show splitOnChar ',' (joinSegs ((t :: ts).map String.data)) = (t :: ts).map String.data
      apply splitOnChar_joinSegs
      · intro s hs
        obtain ⟨u, hu, rfl⟩ := List.exists_of_mem_map hs
        exact (h u hu).2.1
      · simp
    rw [hsplit]
    have hfilter : ((t :: ts).map String.data).filter (fun v => decide (v ≠ [])) =
        (t :: ts).map String.data := by
      rw [List.filter_eq_self]
      intro a ha
      obtain ⟨u, hu, rfl⟩ := List.exists_of_mem_map ha
      simpa using (h u hu).1
    rw [hfilter, List.map_map]
    have : ∀ u ∈ t :: ts, (fun v => String.mk ((trimChars v).map Char.toLower)) (String.data u) = u := by
      intro u hu
      obtain ⟨-, -, htrim, hlow⟩ := h u hu
      simp only [htrim, hlow]
    calc (t :: ts).map ((fun v => String.mk ((trimChars v).map Char.toLower)) ∘ String.data)
        = (t :: ts).map id := List.map_congr_left (fun u hu => this u hu)
      _ = t :: ts := List.map_id _

theorem tag_fromValue_append_new (value : String) (t : TagsTable)
    (h : DatabaseTag.fromValue value t = none) (row : DatabaseTag) (hrow : row.value = value) :
    DatabaseTag.fromValue value { rows := t.rows ++ [row], nextId := t.nextId + 1 } = some row := by
  unfold DatabaseTag.fromValue at h ⊢
  simp only [List.find?_append, h, Option.none_or]
  simp [List.find?, hrow]

theorem tag_fromInsert_cases (tag : Tag) (t : TagsTable) :
    (∃ dbt, DatabaseTag.fromValue tag.value t = some dbt ∧
       DatabaseTag.fromInsert tag t = (Except.ok dbt, t)) ∨
    (DatabaseTag.fromValue tag.value t = none ∧
       DatabaseTag.fromInsert tag t = (Except.ok { id := t.nextId, value := tag.value },
         { rows := t.rows ++ [{ id := t.nextId, value := tag.value }], nextId := t.nextId + 1 })) := by
  cases h : DatabaseTag.fromValue tag.value t with
  | some dbt =>
    left
    exact ⟨dbt, rfl, by unfold DatabaseTag.fromInsert; rw [h]⟩
  | none =>
    right
    refine ⟨rfl, ?_⟩
    unfold DatabaseTag.fromInsert
    rw [h]
    have h2 := tag_fromValue_append_new tag.value t h { id := t.nextId, value := tag.value } rfl
    simp only [h2]

theorem insertTagList_keeps_rows (l : List Tag) (t : TagsTable) (r : DatabaseTag)
    (h : r ∈ t.rows) : r ∈ (insertTagList l t).2.rows := by
  induction l generalizing t with
  | nil => simpa [insertTagList] using h
  | cons tag rest ih =>
    rcases tag_fromInsert_cases tag t with ⟨dbt, -, heq⟩ | ⟨-, heq⟩
    · simp only [insertTagList, heq]
      exact ih t h
    · simp only [insertTagList, heq]
      exact ih _ (by simp [h])

theorem insertTagList_nextId_mono (l : List Tag) (t : TagsTable) :
    t.nextId ≤ (insertTagList l t).2.nextId := by
  induction l generalizing t with
  | nil => simp [insertTagList]
  | cons tag rest ih =>
    rcases tag_fromInsert_cases tag t with ⟨dbt, -, heq⟩ | ⟨-, heq⟩
    · simp only [insertTagList, heq]
      exact ih t
    · simp only [insertTagList, heq]
      exact Nat.le_trans (Nat.le_succ _)
        (ih (TagsTable.mk (t.rows ++ [DatabaseTag.mk t.nextId tag.value]) (t.nextId + 1)))

theorem insertTagList_result_ok (l : List Tag) (t : TagsTable) :
    (insertTagList l t).1 = Except.ok () := by
  induction l generalizing t with
  | nil => rfl
  | cons tag rest ih =>
    rcases tag_fromInsert_cases tag t with ⟨dbt, -, heq⟩ | ⟨-, heq⟩ <;>
      simp only [insertTagList, heq] <;> exact ih _

theorem insertTagList_value_present (l : List Tag) (t : TagsTable) (tag : Tag)
    (h : tag ∈ l) : ∃ r ∈ (insertTagList l t).2.rows, r.value = tag.value := by
  induction l generalizing t with
  | nil => cases h
  | cons hd rest ih =>
    rcases List.mem_cons.mp h with rfl | hmem
    · rcases tag_fromInsert_cases tag t with ⟨dbt, hfv, heq⟩ | ⟨-, heq⟩
      · have hdbt : dbt ∈ t.rows ∧ dbt.value = tag.value := by
          refine ⟨List.mem_of_find?_eq_some hfv, ?_⟩
          have := List.find?_some hfv
          simpa using this
        simp only [insertTagList, heq]
        exact ⟨dbt, insertTagList_keeps_rows rest t dbt hdbt.1, hdbt.2⟩
      · simp only [insertTagList, heq]
        refine ⟨{ id := t.nextId, value := tag.value }, ?_, rfl⟩
        exact insertTagList_keeps_rows rest _ _ (by simp)
    · rcases tag_fromInsert_cases hd t with ⟨dbt, -, heq⟩ | ⟨-, heq⟩ <;>
        simp only [insertTagList, heq] <;> exact ih _ hmem

theorem insertTagList_fresh (l : List Tag) (t : TagsTable) (v : String)
    (hmem : ∃ tag ∈ l, tag.value = v) (habs : ∀ r ∈ t.rows, r.value ≠ v) :
    ∃ r ∈ (insertTagList l t).2.rows, r.value = v ∧ t.nextId ≤ r.id := by
  induction l generalizing t with
  | nil => simp at hmem
  | cons hd rest ih =>
    rcases hmem with ⟨tag, htag, rfl⟩
    rcases List.mem_cons.mp htag with rfl | hmem2
    · have hfv : DatabaseTag.fromValue tag.value t = none := by
        unfold DatabaseTag.fromValue
        rw [List.find?_eq_none]
        intro r hr
        simpa using habs r hr
      rcases tag_fromInsert_cases tag t with ⟨dbt, hfv2, -⟩ | ⟨-, heq⟩
      · rw [hfv] at hfv2; cases hfv2
      · simp only [insertTagList, heq]
        refine ⟨{ id := t.nextId, value := tag.value }, ?_, rfl, Nat.le_refl _⟩
        exact insertTagList_keeps_rows rest _ _ (by simp)
    · rcases tag_fromInsert_cases hd t with ⟨dbt, -, heq⟩ | ⟨hfv, heq⟩
      · simp only [insertTagList, heq]
        exact ih t ⟨tag, hmem2, rfl⟩ habs
      · simp only [insertTagList, heq]
        by_cases hval : hd.value = tag.value
        · refine ⟨{ id := t.nextId, value := hd.value }, ?_, hval, Nat.le_refl _⟩
          exact insertTagList_keeps_rows rest _ _ (by simp)
        · have habs2 : ∀ r ∈ t.rows ++ [({ id := t.nextId, value := hd.value } : DatabaseTag)],
              r.value ≠ tag.value := by
            intro r hr
            rcases List.mem_append.mp hr with hr1 | hr2
            · exact habs r hr1
            · simp only [List.mem_singleton] at hr2
              subst hr2
              simpa using hval
          have hstep := ih (TagsTable.mk (t.rows ++ [DatabaseTag.mk t.nextId hd.value]) (t.nextId + 1)) ⟨tag, hmem2, rfl⟩ habs2
          obtain ⟨r, hr, hrv, hrid⟩ := hstep
          exact ⟨r, hr, hrv, Nat.le_trans (Nat.le_succ _) hrid⟩

theorem doc_fromTitle_append_new (title : String) (db : DocsTable)
    (h : DatabaseDoc.fromTitle title db = none) (row : DatabaseDoc) (hrow : row.title = title)
    (n : Nat) :
    DatabaseDoc.fromTitle title { rows := db.rows ++ [row], nextId := n } = some row := by
  unfold DatabaseDoc.fromTitle at h ⊢
  simp only [List.find?_append, h, Option.none_or]
  simp [List.find?, hrow]

theorem doc_fromInsert_success_eq (doc : Document) (freshUuid : String)
    (db : DocsTable) (tags : TagsTable) (store : Store)
    (hnew : DatabaseDoc.fromTitle doc.title db = none) :
    DatabaseDoc.fromInsert doc freshUuid true db tags store =
      { result := Except.ok (insertedDocRow doc freshUuid db),
        docs := { rows := db.rows ++ [insertedDocRow doc freshUuid db], nextId := db.nextId + 1 },
        tags := (insertTagList (TagInputList.asTags (TagInputList.fromStr doc.tags)) tags).2,
        store := store ++ [storedFileName freshUuid] } := by
  unfold DatabaseDoc.fromInsert
  rw [hnew]
  have hfetch := doc_fromTitle_append_new doc.title db hnew (insertedDocRow doc freshUuid db) rfl
    (db.nextId + 1)
  simp only [if_pos rfl, hfetch]
  have hok := insertTagList_result_ok (TagInputList.asTags (TagInputList.fromStr doc.tags)) tags
  cases hpair : insertTagList (TagInputList.asTags (TagInputList.fromStr doc.tags)) tags with
  | mk res t2 =>
    rw [hpair] at hok
    simp only at hok
    subst hok
    rfl

/-- C4: for every tag value v, inserting v twice via the tag insert operation
(`Tag::insert` = `DatabaseTag::from_insert`) succeeds both times - the second
call is not an error - and the second call returns exactly the record the
first call produced, in particular with the same id. -/
theorem tag_insert_twice_idempotent (v : String) (t : TagsTable) :
    ∃ dbt t1, DatabaseTag.fromInsert (Tag.new v) t = (Except.ok dbt, t1) ∧
      DatabaseTag.fromInsert (Tag.new v) t1 = (Except.ok dbt, t1) := by
  rcases tag_fromInsert_cases (Tag.new v) t with ⟨dbt, hfv, heq⟩ | ⟨hfv, heq⟩
  · refine ⟨dbt, t, heq, ?_⟩
    unfold DatabaseTag.fromInsert
    rw [hfv]
  · refine ⟨{ id := t.nextId, value := (Tag.new v).value },
      TagsTable.mk (t.rows ++ [DatabaseTag.mk t.nextId (Tag.new v).value]) (t.nextId + 1),
      heq, ?_⟩
    have h2 := tag_fromValue_append_new (Tag.new v).value t hfv
      (DatabaseTag.mk t.nextId (Tag.new v).value) rfl
    unfold DatabaseTag.fromInsert
    rw [h2]

/-- C5: inserting a document whose (normalized) title already exists in the
catalog returns the existing row as the successful result and leaves the
document catalog, the tag catalog and the content store unchanged: no row is
written, no uuid-named file is copied into the store. -/
theorem doc_insert_duplicate_title_advisory (doc : Document) (freshUuid : String)
    (copyOk : Bool) (db : DocsTable) (tags : TagsTable) (store : Store)
    (dbd : DatabaseDoc) (h : DatabaseDoc.fromTitle doc.title db = some dbd) :
    DatabaseDoc.fromInsert doc freshUuid copyOk db tags store =
      { result := Except.ok dbd, docs := db, tags := tags, store := store } := by
  unfold DatabaseDoc.fromInsert
  rw [h]

/-- Witness for C5 at a concrete input: a catalog holding one row titled "t"
and a second insert of a document with the same title. -/
theorem doc_insert_duplicate_title_advisory_witness :
    DatabaseDoc.fromInsert sampleDupDoc "v" true sampleDocsDb emptyTagsTable [] =
      { result := Except.ok sampleDocRow, docs := sampleDocsDb,
        tags := emptyTagsTable, store := [] } :=
  doc_insert_duplicate_title_advisory sampleDupDoc "v" true sampleDocsDb emptyTagsTable []
    sampleDocRow (by decide)

/-- C3 counterexample: at a concrete input where the PDF copy fails
(`copyOk = false`), the insert returns the IO error, yet the catalog row for
the document IS committed - a subsequent lookup by title finds it - because
the source INSERTs the row before calling `std::fs::copy` and never rolls it
back.  This refutes the claim that no catalog row is committed on copy
failure. -/
theorem doc_insert_copy_failure_commits_row :
    (DatabaseDoc.fromInsert sampleNewDoc "u1" false emptyDocsDb emptyTagsTable []).result =
      Except.error "copy failed" ∧
    DatabaseDoc.fromTitle sampleNewDoc.title
      (DatabaseDoc.fromInsert sampleNewDoc "u1" false emptyDocsDb emptyTagsTable []).docs =
      some (insertedDocRow sampleNewDoc "u1" emptyDocsDb) :=
  ⟨rfl, by decide⟩

/-- C3 amended: when the PDF copy fails on an insert of a fresh title, the
operation returns an error and copies nothing into the content store, but the
catalog row written before the copy stays committed - the documents table
gains the new row and a lookup by title finds it; there is no rollback. -/
theorem doc_insert_copy_failure_no_rollback (doc : Document) (freshUuid : String)
    (db : DocsTable) (tags : TagsTable) (store : Store)
    (hnew : DatabaseDoc.fromTitle doc.title db = none) :
    (DatabaseDoc.fromInsert doc freshUuid false db tags store).result =
      Except.error "copy failed" ∧
    (DatabaseDoc.fromInsert doc freshUuid false db tags store).store = store ∧
    (DatabaseDoc.fromInsert doc freshUuid false db tags store).tags = tags ∧
    (DatabaseDoc.fromInsert doc freshUuid false db tags store).docs.rows =
      db.rows ++ [insertedDocRow doc freshUuid db] ∧
    DatabaseDoc.fromTitle doc.title
      (DatabaseDoc.fromInsert doc freshUuid false db tags store).docs =
      some (insertedDocRow doc freshUuid db) := by
  have heq : DatabaseDoc.fromInsert doc freshUuid false db tags store =
      { result := Except.error "copy failed",
        docs := { rows := db.rows ++ [insertedDocRow doc freshUuid db], nextId := db.nextId + 1 },
        tags := tags, store := store } := by
    unfold DatabaseDoc.fromInsert
    rw [hnew]
    rfl
  rw [heq]

  refine ⟨rfl, rfl, rfl, rfl, ?_⟩
  exact doc_fromTitle_append_new doc.title db hnew _ rfl _

/-- Witness for the amended C3 at a concrete input: inserting a fresh title
into an empty catalog with a failing copy. -/
theorem doc_insert_copy_failure_no_rollback_witness :
    (DatabaseDoc.fromInsert sampleNewDoc "u1" false emptyDocsDb emptyTagsTable []).result =
      Except.error "copy failed" ∧
    (DatabaseDoc.fromInsert sampleNewDoc "u1" false emptyDocsDb emptyTagsTable []).store = [] ∧
    (DatabaseDoc.fromInsert sampleNewDoc "u1" false emptyDocsDb emptyTagsTable []).tags =
      emptyTagsTable ∧
    (DatabaseDoc.fromInsert sampleNewDoc "u1" false emptyDocsDb emptyTagsTable []).docs.rows =
      emptyDocsDb.rows ++ [insertedDocRow sampleNewDoc "u1" emptyDocsDb] ∧
    DatabaseDoc.fromTitle sampleNewDoc.title
      (DatabaseDoc.fromInsert sampleNewDoc "u1" false emptyDocsDb emptyTagsTable []).docs =
      some (insertedDocRow sampleNewDoc "u1" emptyDocsDb) :=
  doc_insert_copy_failure_no_rollback sampleNewDoc "u1" emptyDocsDb emptyTagsTable [] (by decide)

/-- C8: evaluation of `DatabaseDoc::stored_path` at the failing input.  The
claim says `stored_path` fails exactly when the file is absent from the
store; but for a row whose uuid has the 36-character shape that the insert
path itself generates, `stored_path` fails even though the uuid-named file IS
present in the store, because `is_stored` demands `uuid.len() == 40`. -/
theorem stored_path_fails_despite_file_present :
    uuid36.data.length = 36 ∧
    storedFileName uuid36 ∈ ([storedFileName uuid36] : Store) ∧
    row36.storedPath [storedFileName uuid36] = Except.error "Document is not stored" :=
  ⟨by decide, by decide, rfl⟩

/-- Helper: the `Into<Document>` conversion panics (models as `none`) as soon
as the uuid is not 40 characters long or the stored file is absent. -/
theorem intoDocument_none_of (d : DatabaseDoc) (store : Store)
    (h : d.uuid.data.length ≠ 40 ∨ storedFileName d.uuid ∉ store) :
    d.intoDocument store = none := by
  have hb : d.isStored store = false := by
    rcases h with h | h
    · unfold DatabaseDoc.isStored
      have hd : decide (d.uuid.data.length = 40) = false := decide_eq_false h
      rw [hd, Bool.false_and]
    · unfold DatabaseDoc.isStored
      have hd : decide (storedFileName d.uuid ∈ store) = false := decide_eq_false h
      rw [hd, Bool.and_false]
  unfold DatabaseDoc.intoDocument DatabaseDoc.storedPath
  rw [hb]
  rfl

/-- C9: converting a database document row into a `Document` - the step the
get-by-id and get-by-title lookups perform - panics (modelled as `none`)
whenever the row's uuid is not exactly 40 characters long or the stored file
is absent; and since the insert path assigns 36-character UUID-v4 content
ids, every row created by a successful insert panics this way, for any state
of the content store. -/
theorem into_document_panic_reachable :
    (∀ (d : DatabaseDoc) (store : Store),
        d.uuid.data.length ≠ 40 ∨ storedFileName d.uuid ∉ store →
        d.intoDocument store = none) ∧
    (∀ (doc : Document) (freshUuid : String) (db : DocsTable) (tags : TagsTable)
        (store : Store), freshUuid.data.length = 36 →
        DatabaseDoc.fromTitle doc.title db = none →
        ∃ dbd, (DatabaseDoc.fromInsert doc freshUuid true db tags store).result =
            Except.ok dbd ∧ dbd.uuid = freshUuid ∧
          ∀ st : Store, dbd.intoDocument st = none) := by
  refine ⟨intoDocument_none_of, ?_⟩
  intro doc freshUuid db tags store hlen hnew
  refine ⟨insertedDocRow doc freshUuid db, ?_, rfl, ?_⟩
  · rw [doc_fromInsert_success_eq doc freshUuid db tags store hnew]
  · intro st
    apply intoDocument_none_of
    left
    show freshUuid.data.length ≠ 40
    omega

/-- Witness for C9 at concrete inputs: the conversion of `row36` panics with
an empty store, and a concrete successful insert into empty catalogs yields a
row whose conversion panics for every store state. -/
theorem into_document_panic_reachable_witness :
    row36.intoDocument [] = none ∧
    ∃ dbd, (DatabaseDoc.fromInsert sampleNewDoc uuid36 true emptyDocsDb emptyTagsTable []).result =
        Except.ok dbd ∧ dbd.uuid = uuid36 ∧ ∀ st : Store, dbd.intoDocument st = none :=
  ⟨into_document_panic_reachable.1 row36 [] (Or.inl (by decide)),
   into_document_panic_reachable.2 sampleNewDoc uuid36 emptyDocsDb emptyTagsTable []
     (by decide) (by decide)⟩

/-- C7: deleting a stored document row always returns success, removes the
catalog row so that both the get-by-id and get-by-title lookups subsequently
report NotFound, and attempts to remove the backing content file: when the
removal succeeds the file is gone from the store, and when it fails the store
is untouched yet the operation still returns success.  The id-uniqueness
hypothesis reflects the primary-key property of the id column, and the
lowercase hypothesis reflects that stored titles are lowercased on entry. -/
theorem doc_delete_removes_row_best_effort (d : DatabaseDoc) (db : DocsTable)
    (store : Store) (removeOk : Bool)
    (_hmem : d ∈ db.rows)
    (hid : ∀ r ∈ db.rows, r.id = d.id → r = d)
    (hlow : lowerStr d.title = d.title) :
    (DatabaseDoc.deleteDoc d db store removeOk).result = Except.ok () ∧
    (∀ st : Store,
      Document.fromId d.id (DatabaseDoc.deleteDoc d db store removeOk).docs st =
        Lookup.notFound) ∧
    (∀ st : Store,
      Document.fromTitle d.title (DatabaseDoc.deleteDoc d db store removeOk).docs st =
        Lookup.notFound) ∧
    (removeOk = true →
      storedFileName d.uuid ∉ (DatabaseDoc.deleteDoc d db store removeOk).store) ∧
    (removeOk = false → (DatabaseDoc.deleteDoc d db store removeOk).store = store) := by
  have hrows : (DatabaseDoc.deleteDoc d db store removeOk).docs.rows =
      db.rows.filter (fun r => !decide (r.title = d.title)) := rfl
  have hmemfilter : ∀ r ∈ (DatabaseDoc.deleteDoc d db store removeOk).docs.rows,
      r ∈ db.rows ∧ r.title ≠ d.title := by
    intro r hr
    rw [hrows] at hr
    have := List.mem_filter.mp hr
    refine ⟨this.1, ?_⟩
    have hb := this.2
    simpa using hb
  have hfid : DatabaseDoc.fromId d.id (DatabaseDoc.deleteDoc d db store removeOk).docs = none := by
    unfold DatabaseDoc.fromId
    rw [List.find?_eq_none]
    intro r hr
    obtain ⟨hr1, hr2⟩ := hmemfilter r hr
    simp only [decide_eq_true_eq]
    intro hrid
    exact hr2 (congrArg DatabaseDoc.title (hid r hr1 hrid))
  have hftitle : DatabaseDoc.fromTitle (lowerStr d.title)
      (DatabaseDoc.deleteDoc d db store removeOk).docs = none := by
    unfold DatabaseDoc.fromTitle
    rw [List.find?_eq_none]
    intro r hr
    obtain ⟨-, hr2⟩ := hmemfilter r hr
    rw [hlow]
    simpa using hr2
  refine ⟨rfl, ?_, ?_, ?_, ?_⟩
  · intro st
    unfold Document.fromId
    rw [hfid]
  · intro st
    unfold Document.fromTitle
    rw [hftitle]
  · intro hok
    have hst : (DatabaseDoc.deleteDoc d db store removeOk).store =
        store.filter (fun f => !decide (f = storedFileName d.uuid)) := by
      unfold DatabaseDoc.deleteDoc
      rw [hok]
      rfl
    rw [hst]
    intro hmem2
    have := (List.mem_filter.mp hmem2).2
    simp at this
  · intro hnok
    unfold DatabaseDoc.deleteDoc
    rw [hnok]
    rfl

/-- Witness for C7 at a concrete input: delete the single stored row (both
for a succeeding and the statement covers a failing file removal via the
quantified conclusions). -/
theorem doc_delete_removes_row_best_effort_witness :
    (DatabaseDoc.deleteDoc sampleDocRow sampleDocsDb [storedFileName "u"] true).result =
      Except.ok () ∧
    (∀ st : Store,
      Document.fromId sampleDocRow.id
        (DatabaseDoc.deleteDoc sampleDocRow sampleDocsDb [storedFileName "u"] true).docs st =
        Lookup.notFound) ∧
    (∀ st : Store,
      Document.fromTitle sampleDocRow.title
        (DatabaseDoc.deleteDoc sampleDocRow sampleDocsDb [storedFileName "u"] true).docs st =
        Lookup.notFound) ∧
    (true = true →
      storedFileName sampleDocRow.uuid ∉
        (DatabaseDoc.deleteDoc sampleDocRow sampleDocsDb [storedFileName "u"] true).store) ∧
    (true = false →
      (DatabaseDoc.deleteDoc sampleDocRow sampleDocsDb [storedFileName "u"] true).store =
        [storedFileName "u"]) :=
  doc_delete_removes_row_best_effort sampleDocRow sampleDocsDb [storedFileName "u"] true
    (by decide) (by decide) (by decide)

/-- C6: after a successful insert of a document with a fresh title, every
parsed comma-separated tag token of its tags string is present in the tag
catalog; rows of the catalog that already held such a token survive unchanged
(keeping their ids), and a token no existing row held is present on a row
whose id differs from every pre-existing id (a newly assigned id).  The
hypothesis `hids` is the primary-key invariant that every existing id is
below the table's next id. -/
theorem doc_insert_tags_auto_created (doc : Document) (freshUuid : String)
    (db : DocsTable) (tags : TagsTable) (store : Store)
    (hnew : DatabaseDoc.fromTitle doc.title db = none)
    (hids : ∀ r ∈ tags.rows, r.id < tags.nextId) :
    ∃ dbd, (DatabaseDoc.fromInsert doc freshUuid true db tags store).result =
        Except.ok dbd ∧
    ∀ v ∈ TagInputList.fromStr doc.tags,
      (∃ r ∈ (DatabaseDoc.fromInsert doc freshUuid true db tags store).tags.rows,
        r.value = v) ∧
      (∀ r ∈ tags.rows, r.value = v →
        r ∈ (DatabaseDoc.fromInsert doc freshUuid true db tags store).tags.rows) ∧
      ((∀ r ∈ tags.rows, r.value ≠ v) →
        ∃ r ∈ (DatabaseDoc.fromInsert doc freshUuid true db tags store).tags.rows,
          r.value = v ∧ ∀ r0 ∈ tags.rows, r0.id ≠ r.id) := by
  rw [doc_fromInsert_success_eq doc freshUuid db tags store hnew]
  refine ⟨insertedDocRow doc freshUuid db, rfl, ?_⟩
  intro v hv
  have hlfix : lowerStr v = v := lowerStr_token hv
  have htag : Tag.new v ∈ TagInputList.asTags (TagInputList.fromStr doc.tags) :=
    List.mem_map_of_mem Tag.new hv
  have hval : (Tag.new v).value = v := hlfix
  refine ⟨?_, ?_, ?_⟩
  · obtain ⟨r, hr, hrv⟩ := insertTagList_value_present _ tags (Tag.new v) htag
    exact ⟨r, hr, by rw [hrv, hval]⟩
  · intro r hr hrv
    exact insertTagList_keeps_rows _ tags r hr
  · intro habs
    have habs2 : ∀ r ∈ tags.rows, r.value ≠ (Tag.new v).value := by
      intro r hr
      rw [hval]
      exact habs r hr
    obtain ⟨r, hr, hrv, hrid⟩ := insertTagList_fresh _ tags (Tag.new v).value
      ⟨Tag.new v, htag, rfl⟩ habs2
    refine ⟨r, hr, by rw [hrv, hval], ?_⟩
    intro r0 hr0
    have := hids r0 hr0
    omega

/-- Witness for C6 at a concrete input: insert a document tagged "a,b" into
an empty document catalog while the tag catalog already holds "a". -/
theorem doc_insert_tags_auto_created_witness :
    ∃ dbd, (DatabaseDoc.fromInsert sampleTaggedDoc "u2" true emptyDocsDb preTagsTable []).result =
        Except.ok dbd ∧
    ∀ v ∈ TagInputList.fromStr sampleTaggedDoc.tags,
      (∃ r ∈ (DatabaseDoc.fromInsert sampleTaggedDoc "u2" true emptyDocsDb preTagsTable []).tags.rows,
        r.value = v) ∧
      (∀ r ∈ preTagsTable.rows, r.value = v →
        r ∈ (DatabaseDoc.fromInsert sampleTaggedDoc "u2" true emptyDocsDb preTagsTable []).tags.rows) ∧
      ((∀ r ∈ preTagsTable.rows, r.value ≠ v) →
        ∃ r ∈ (DatabaseDoc.fromInsert sampleTaggedDoc "u2" true emptyDocsDb preTagsTable []).tags.rows,
          r.value = v ∧ ∀ r0 ∈ preTagsTable.rows, r0.id ≠ r.id) :=
  doc_insert_tags_auto_created sampleTaggedDoc "u2" emptyDocsDb preTagsTable []
    (by decide) (by decide)

/-- C1: after the tag-delete operation (spec-modelled synchronizer
`onTagDeleted`) completes for a value v, no document's tags field parses to a
token list containing v; moreover every document keeps a row with its id
whose token list is exactly its old token list with the v-tokens dropped (so
every other token is preserved in order in the comma-joined field), and no
empty token is introduced on a document that had none.  The hypothesis says
every stored token is well-formed (nonempty, comma-free, trimmed,
lowercase), which is the shape the insert path writes. -/
theorem on_tag_deleted_scrubs_documents (v : String) (db : DocsTable) (tags : TagsTable)
    (hdocs : ∀ r ∈ db.rows, ∀ t ∈ TagInputList.fromStr r.tags, wfToken t) :
    (∀ r2 ∈ (onTagDeleted v db tags).1.rows, v ∉ TagInputList.fromStr r2.tags) ∧
    (∀ r ∈ db.rows, ∃ r2 ∈ (onTagDeleted v db tags).1.rows, r2.id = r.id ∧
      TagInputList.fromStr r2.tags =
        (TagInputList.fromStr r.tags).filter (fun t => decide (t ≠ v)) ∧
      ("" ∉ TagInputList.fromStr r.tags → "" ∉ TagInputList.fromStr r2.tags)) := by
  have hscrub : ∀ r ∈ db.rows, v ∈ TagInputList.fromStr r.tags →
      TagInputList.fromStr (joinTokens ((TagInputList.fromStr r.tags).filter
        (fun t => decide (t ≠ v)))) =
      (TagInputList.fromStr r.tags).filter (fun t => decide (t ≠ v)) := by
    intro r hr _
    exact fromStr_joinTokens _ (fun t ht => hdocs r hr t (List.mem_filter.mp ht).1)
  constructor
  · intro r2 hr2
    obtain ⟨r, hr, rfl⟩ := List.exists_of_mem_map hr2
    by_cases hmem : v ∈ TagInputList.fromStr r.tags
    · rw [if_pos hmem, hscrub r hr hmem]
      intro hvin
      have := (List.mem_filter.mp hvin).2
      simp at this
    · rw [if_neg hmem]
      exact hmem
  · intro r hr
    by_cases hmem : v ∈ TagInputList.fromStr r.tags
    · refine ⟨_, List.mem_map_of_mem _ hr, ?_⟩
      rw [if_pos hmem]
      refine ⟨rfl, hscrub r hr hmem, ?_⟩
      rw [hscrub r hr hmem]
      intro hnone hin
      exact hnone (List.mem_filter.mp hin).1
    · refine ⟨_, List.mem_map_of_mem _ hr, ?_⟩
      rw [if_neg hmem]
      refine ⟨rfl, ?_, fun h => h⟩
      refine (List.filter_eq_self.mpr ?_).symm
      intro t ht
      simp only [decide_eq_true_eq]
      intro heq
      exact hmem (heq ▸ ht)

/-- Witness for C1 at a concrete input: a catalog with one document tagged
"a,b,c" (and one untouched document tagged "a"), deleting tag value "b". -/
theorem on_tag_deleted_scrubs_documents_witness :
    (∀ r2 ∈ (onTagDeleted "b" syncDocsDb preTagsTable).1.rows,
      "b" ∉ TagInputList.fromStr r2.tags) ∧
    (∀ r ∈ syncDocsDb.rows, ∃ r2 ∈ (onTagDeleted "b" syncDocsDb preTagsTable).1.rows,
      r2.id = r.id ∧
      TagInputList.fromStr r2.tags =
        (TagInputList.fromStr r.tags).filter (fun t => decide (t ≠ "b")) ∧
      ("" ∉ TagInputList.fromStr r.tags → "" ∉ TagInputList.fromStr r2.tags)) :=
  on_tag_deleted_scrubs_documents "b" syncDocsDb preTagsTable (by decide)

/-- C2: after the tag-rename operation (spec-modelled synchronizer
`onTagRenamed`) from old_value to new_value, every tag-catalog row that held
old_value is present with the SAME id and the new value, every other catalog
row is unchanged, and every document keeps a row with its id whose token list
is its old token list with old_value-tokens replaced by new_value (persisted
comma-joined).  Hypotheses: the new value is a well-formed token and every
stored token is well-formed. -/
theorem on_tag_renamed_updates_catalog_and_documents (oldV newV : String)
    (db : DocsTable) (tags : TagsTable)
    (hnewwf : wfToken newV)
    (hdocs : ∀ r ∈ db.rows, ∀ t ∈ TagInputList.fromStr r.tags, wfToken t) :
    (∀ r ∈ tags.rows, r.value = oldV →
      DatabaseTag.mk r.id newV ∈ (onTagRenamed oldV newV db tags).2.rows) ∧
    (∀ r ∈ tags.rows, r.value ≠ oldV → r ∈ (onTagRenamed oldV newV db tags).2.rows) ∧
    (∀ r ∈ db.rows, ∃ r2 ∈ (onTagRenamed oldV newV db tags).1.rows, r2.id = r.id ∧
      TagInputList.fromStr r2.tags =
        (TagInputList.fromStr r.tags).map (fun t => if decide (t = oldV) then newV else t)) := by
  have hmapwf : ∀ r ∈ db.rows, ∀ t2 ∈ (TagInputList.fromStr r.tags).map
      (fun t => if decide (t = oldV) then newV else t), wfToken t2 := by
    intro r hr t2 ht2
    obtain ⟨t, ht, rfl⟩ := List.exists_of_mem_map ht2
    by_cases heq : t = oldV
    · simpa [heq] using hnewwf
    · simpa [heq] using hdocs r hr t ht
  refine ⟨?_, ?_, ?_⟩
  · intro r hr hval
    have : (fun r0 : DatabaseTag =>
        if decide (r0.value = oldV) then DatabaseTag.mk r0.id newV else r0) r =
        DatabaseTag.mk r.id newV := by
      simp [hval]
    exact this ▸ List.mem_map_of_mem _ hr
  · intro r hr hval
    have : (fun r0 : DatabaseTag =>
        if decide (r0.value = oldV) then DatabaseTag.mk r0.id newV else r0) r = r := by
      simp [hval]
    exact this ▸ List.mem_map_of_mem _ hr
  · intro r hr
    by_cases hmem : oldV ∈ TagInputList.fromStr r.tags
    · refine ⟨_, List.mem_map_of_mem _ hr, ?_⟩
      rw [if_pos hmem]
      exact ⟨rfl, fromStr_joinTokens _ (hmapwf r hr)⟩
    · refine ⟨_, List.mem_map_of_mem _ hr, ?_⟩
      rw [if_neg hmem]
      refine ⟨rfl, ?_⟩
      have : ∀ t ∈ TagInputList.fromStr r.tags,
          (if decide (t = oldV) then newV else t) = t := by
        intro t ht
        have hne : t ≠ oldV := fun heq => hmem (heq ▸ ht)
        simp [hne]
      exact ((List.map_congr_left this).trans (List.map_id _)).symm

/-- Witness for C2 at a concrete input: rename tag "a" (id 1) to "z" with one
document tagged "a,b,c" and one tagged "a". -/
theorem on_tag_renamed_updates_catalog_and_documents_witness :
    (∀ r ∈ preTagsTable.rows, r.value = "a" →
      DatabaseTag.mk r.id "z" ∈ (onTagRenamed "a" "z" syncDocsDb preTagsTable).2.rows) ∧
    (∀ r ∈ preTagsTable.rows, r.value ≠ "a" →
      r ∈ (onTagRenamed "a" "z" syncDocsDb preTagsTable).2.rows) ∧
    (∀ r ∈ syncDocsDb.rows, ∃ r2 ∈ (onTagRenamed "a" "z" syncDocsDb preTagsTable).1.rows,
      r2.id = r.id ∧
      TagInputList.fromStr r2.tags =
        (TagInputList.fromStr r.tags).map (fun t => if decide (t = "a") then "z" else t)) :=
  on_tag_renamed_updates_catalog_and_documents "a" "z" syncDocsDb preTagsTable
    (by decide) (by decide)

/-- C10: the tag-input parser trims and lowercases every comma-separated
segment and drops a segment only when it is empty BEFORE trimming: every
nonempty raw segment contributes its trimmed-lowercased form, the parsed list
is exactly as long as the list of nonempty raw segments, and on the input
"a, ,b" - whose middle segment is whitespace-only, hence nonempty - the
result is ["a", "", "b"], which contains the empty-string tag token. -/
theorem tag_input_parser_keeps_whitespace_segments :
    TagInputList.fromStr "a, ,b" = ["a", "", "b"] ∧
    "" ∈ TagInputList.fromStr "a, ,b" ∧
    (∀ s : String, ∀ seg ∈ splitOnChar ',' s.data, seg ≠ [] →
      String.mk ((trimChars seg).map Char.toLower) ∈ TagInputList.fromStr s) ∧
    (∀ s : String, (TagInputList.fromStr s).length =
      ((splitOnChar ',' s.data).filter (fun v => decide (v ≠ []))).length) := by
  refine ⟨by decide, by decide, ?_, ?_⟩
  · intro s seg hmem hne
    unfold TagInputList.fromStr
    exact List.mem_map_of_mem _ (List.mem_filter.mpr ⟨hmem, by simpa using hne⟩)
  · intro s
    unfold TagInputList.fromStr
    rw [List.length_map]

/-- Witness for C10 at a concrete input: the whitespace-only middle segment
of "a, ,b" contributes the empty-string token to the parsed list. -/
theorem tag_input_parser_keeps_whitespace_segments_witness :
    String.mk ((trimChars " ".data).map Char.toLower) ∈ TagInputList.fromStr "a, ,b" :=
  tag_input_parser_keeps_whitespace_segments.2.2.1 "a, ,b" " ".data (by decide) (by decide)

end Odinsource
